import Mathlib

/-!
Verification development for the SocketpProject file-transfer system
(`common/protocol.py`, `client_app/client.py`, `server_app/server.py`).

Bytes are modelled as `Nat` (0..255 in practice), byte strings as `List Nat`,
and the TCP receive side of a connection as a `List (List Nat)`: the successive
groups of bytes the kernel hands back to `socket.recv` calls.  An exhausted
list models a peer that has closed the connection (in Python, `recv` then
returns `b""`).  Decoded text is modelled as `List Char`.
-/

namespace SocketProj

/-- Constant `BUFFER_SIZE` from `common/protocol.py`. -/
def BUFFER_SIZE : Nat := 4096

/-- Constant `CHUNK_SIZE` from `common/protocol.py` (1 MiB). -/
def CHUNK_SIZE : Nat := 1024 * 1024

/-- The newline byte scanned for by `Client._receive_line`. -/
def NL : Nat := 10

/-- Total number of bytes still deliverable by the modelled socket. -/
def streamBytes (s : List (List Nat)) : Nat := s.flatten.length

/-- One `socket.recv(n)` call: returns at most `n` bytes, taken from the front
of the first pending group; a longer group is split and its remainder stays
pending.  An exhausted stream yields `[]`, Python's `b""` for a closed peer. -/
def sockRecv (n : Nat) : List (List Nat) → List Nat × List (List Nat)
  | [] => ([], [])
  | p :: rest =>
    if p.length ≤ n then (p, rest)
    else (p.take n, p.drop n :: rest)

/-- Byte-level model of Python `str.strip` restricted to ASCII whitespace,
applied by `_receive_line` to the decoded line. -/
def isSpaceByte (b : Nat) : Bool :=
  b = 32 || b = 9 || b = 10 || b = 13 || b = 11 || b = 12

/-- Python `bytes/str.strip`: drop leading and trailing whitespace. -/
def pyStrip (l : List Nat) : List Nat :=
  ((l.dropWhile isSpaceByte).reverse.dropWhile isSpaceByte).reverse

/-- Split a buffer at its first newline byte, as `_receive_line` does with
`find(b'\n')` and slicing: the part before the newline and the part after it. -/
def splitFirstNL (buffer : List Nat) : List Nat × List Nat :=
  (buffer.takeWhile (fun b => b ≠ NL), (buffer.dropWhile (fun b => b ≠ NL)).tail)

/-- Result of `Client._receive_line`: a completed line together with the
carry-over buffer and the not-yet-delivered stream, or a `ConnectionError`
(with or without partially collected bytes), or fuel exhaustion (unreachable
with the fuel chosen in `recvLine`). -/
inductive LineResult where
  | ok (line buf : List Nat) (stream : List (List Nat))
  | closedWithData (bytes : List Nat)
  | closedEmpty
  | fuelOut
deriving DecidableEq

/-- The loop of `Client._receive_line`: while no newline is buffered, call
`recv(BUFFER_SIZE)`; an empty read raises `ConnectionError` (with the partial
buffer reported when non-empty); otherwise append and continue.  Once a
newline is present, return the stripped decoded line and keep the remainder
in the buffer. -/
def recvLineLoop : Nat → List Nat → List (List Nat) → LineResult
  | 0, _, _ => LineResult.fuelOut
  | fuel + 1, buffer, stream =>
    if NL ∈ buffer then
      LineResult.ok (pyStrip (splitFirstNL buffer).1) (splitFirstNL buffer).2 stream
    else
      if (sockRecv BUFFER_SIZE stream).1 = [] then
        if buffer = [] then LineResult.closedEmpty
        else LineResult.closedWithData buffer
      else
        recvLineLoop fuel (buffer ++ (sockRecv BUFFER_SIZE stream).1)
          (sockRecv BUFFER_SIZE stream).2

/-- `Client._receive_line` on a given carry-over buffer and pending stream.
`streamBytes stream + 1` rounds of the loop always suffice, since every
successful `recv` consumes at least one pending byte. -/
def recvLine (buffer : List Nat) (stream : List (List Nat)) : LineResult :=
  recvLineLoop (streamBytes stream + 1) buffer stream

/-- The inner `while len(chunk_data) < bytes_to_receive_this_chunk` loop of
`Client.request_download_file`: repeatedly `recv(min(BUFFER_SIZE,
remaining_in_chunk))`, failing (`ConnectionError`, modelled as `none`) on an
empty read.  Fuel exhaustion also yields `none`; `recvExact` supplies enough
fuel that this is unreachable. -/
def recvExactLoop : Nat → Nat → List Nat → List (List Nat) →
    Option (List Nat × List (List Nat))
  | 0, _, _, _ => none
  | fuel + 1, want, acc, stream =>
    if acc.length ≥ want then some (acc, stream)
    else
      if (sockRecv (min BUFFER_SIZE (want - acc.length)) stream).1 = [] then none
      else
        recvExactLoop fuel want
          (acc ++ (sockRecv (min BUFFER_SIZE (want - acc.length)) stream).1)
          (sockRecv (min BUFFER_SIZE (want - acc.length)) stream).2

/-- Read exactly `want` bytes for one chunk, starting from `chunk_data = b''`.
Each successful `recv` returns at least one byte, so `want + 1` rounds
always suffice. -/
def recvExact (want : Nat) (stream : List (List Nat)) :
    Option (List Nat × List (List Nat)) :=
  recvExactLoop (want + 1) want [] stream

/-- Client-side transfer state inside the chunk loop: the bytes written to the
local file so far, `total_bytes_received`, and the pending socket stream. -/
structure ChunkLoopState where
  fileData : List Nat
  total : Nat
  stream : List (List Nat)
deriving DecidableEq

/-- The `for i in range(num_chunks)` loop of `Client.request_download_file`:
each iteration computes `bytes_to_receive_this_chunk = min(CHUNK_SIZE,
file_size - total_bytes_received)`, breaks when it is zero with the transfer
complete, reads exactly that many bytes (a failed read aborts the whole
download, modelled `none`), writes them and adds their length to the total.
The second component records `total_bytes_received` after each completed
chunk, for stating the transfer-state invariant. -/
def downloadLoop (fileSize : Nat) : Nat → ChunkLoopState →
    Option ChunkLoopState × List Nat
  | 0, st => (some st, [])
  | n + 1, st =>
    if min CHUNK_SIZE (fileSize - st.total) = 0 ∧ st.total = fileSize then
      (some st, [])
    else
      match recvExact (min CHUNK_SIZE (fileSize - st.total)) st.stream with
      | none => (none, [])
      | some (chunk, rest) =>
        ((downloadLoop fileSize n
            ⟨st.fileData ++ chunk, st.total + chunk.length, rest⟩).1,
         (st.total + chunk.length) ::
           (downloadLoop fileSize n
             ⟨st.fileData ++ chunk, st.total + chunk.length, rest⟩).2)

/-- `Client.request_download_file` after the `FILE_INFO` header has been
parsed into `fileSize` and `numChunks`: the empty-file special case writes
nothing and succeeds; otherwise the chunk loop runs and the transfer is
judged successful iff `total_bytes_received == file_size`, any failure or
mismatch deleting the partial local file.  `some data` models the local file
that survives; `none` models a failed download whose partial file was
removed. -/
def request_download (fileSize numChunks : Nat) (stream : List (List Nat)) :
    Option (List Nat) :=
  if fileSize = 0 ∧ numChunks = 1 then some []
  else
    match (downloadLoop fileSize numChunks ⟨[], 0, stream⟩).1 with
    | none => none
    | some st => if st.total = fileSize then some st.fileData else none

/-- The download path of `Client.request_download_file` as written: read the
`FILE_INFO` header line with `_receive_line`, then run the chunk loop on the
remaining socket stream only — the carry-over `receive_buffer` left by the
header read is never consulted by the chunk loop. -/
def clientDownloadFlow (fileSize numChunks : Nat) (stream : List (List Nat)) :
    Option (List Nat) :=
  match recvLine [] stream with
  | LineResult.ok _ _ rest => request_download fileSize numChunks rest
  | _ => none

/-- The drain-first behaviour the spec requires of the chunk reader: bytes
already sitting in the carry-over buffer after the header read are consumed
before any further socket read.  Draining the buffer first is equivalent to
putting it back at the front of the pending stream. -/
def clientDownloadFlowDrained (fileSize numChunks : Nat)
    (stream : List (List Nat)) : Option (List Nat) :=
  match recvLine [] stream with
  | LineResult.ok _ buf rest =>
      request_download fileSize numChunks (if buf = [] then rest else buf :: rest)
  | _ => none

/-- Chunk count as computed by `ClientHandler.handle_download_single_file`:
`math.ceil(file_size / CHUNK_SIZE) if file_size > 0 else 1`. -/
def chunkCount (fileSize : Nat) : Nat :=
  if fileSize > 0 then (fileSize + CHUNK_SIZE - 1) / CHUNK_SIZE else 1

/-- Per-chunk sizes of the chunking plan shared by server and client: the
chunk at `offset` has size `min(CHUNK_SIZE, file_size - offset)` (the client
computes exactly this per iteration; the server reads `f.read(CHUNK_SIZE)`
which returns the same amount). -/
def planSizesAux (fileSize : Nat) : Nat → Nat → List Nat
  | 0, _ => []
  | n + 1, offset =>
    min CHUNK_SIZE (fileSize - offset) ::
      planSizesAux fileSize n (offset + min CHUNK_SIZE (fileSize - offset))

/-- The full chunking plan for a file of a given size: `chunkCount` chunks,
each sized `min(CHUNK_SIZE, file_size - offset)`. -/
def planSizes (fileSize : Nat) : List Nat :=
  planSizesAux fileSize (chunkCount fileSize) 0

/-- One message written by the server with `sendall`: either a header /
text line of the control plane or a raw binary chunk payload. -/
inductive ServerMsg where
  | okCount (n : Nat)
  | okText (s : List Char)
  | errorText (s : List Char)
  | fileNotFound (s : List Char)
  | fileInfo (name : List Char) (size nchunks : Nat)
  | rawLine (s : List Char)
  | chunk (data : List Nat)
deriving DecidableEq

/-- The served-files directory path (`SERVER_FILES_DIR`), abstracted to a
fixed single-segment path. -/
def SERVER_FILES_DIR : List Char := "server_files".data

/-- Model of `os.path.join(dir, name)` for a POSIX path: an absolute `name`
replaces `dir`; otherwise the two are joined with a separator. -/
def ospathJoin (dir name : List Char) : List Char :=
  if name.head? = some '/' then name else dir ++ '/' :: name

/-- Split a path into its slash-separated raw segments. -/
def splitSlashAux : List Char → List Char → List (List Char)
  | [], cur => [cur.reverse]
  | c :: cs, cur =>
    if c = '/' then cur.reverse :: splitSlashAux cs []
    else splitSlashAux cs (c :: cur)

/-- Split a path on the separator character. -/
def splitSlash (p : List Char) : List (List Char) := splitSlashAux p []

/-- Canonical path segments as the operating system resolves them when the
file is opened: empty and current-directory segments vanish and a
parent-directory segment removes the segment before it. -/
def normSegs (segs : List (List Char)) : List (List Char) :=
  segs.foldl
    (fun acc s =>
      if s = [] ∨ s = ['.'] then acc
      else if s = ['.', '.'] then acc.dropLast
      else acc ++ [s])
    []

/-- The canonical path a textual path denotes on the filesystem. -/
def resolvePath (p : List Char) : List (List Char) := normSegs (splitSlash p)

/-- The filesystem visible to the server: regular files, keyed by canonical
path segments, with their byte contents.  `os.path.exists` together with
`os.path.isfile` holds exactly for the keys. -/
abbrev FileSystem := List (List (List Char) × List Nat)

/-- Look up a regular file by canonical path. -/
def lookupFile : FileSystem → List (List Char) → Option (List Nat)
  | [], _ => none
  | (p, c) :: rest, q => if p = q then some c else lookupFile rest q

/-- Whether a canonical path lies inside the served directory. -/
def isUnderServedDir (p : List (List Char)) : Bool :=
  p.take (resolvePath SERVER_FILES_DIR).length = resolvePath SERVER_FILES_DIR

/-- The chunk-sending loop of `ClientHandler.handle_download_single_file` for
a non-empty file: up to `n` rounds of `chunk_data = f.read(CHUNK_SIZE)`,
breaking on an empty read, each round sending one raw chunk. -/
def serverSendChunks : Nat → List Nat → List ServerMsg
  | 0, _ => []
  | n + 1, data =>
    if data = [] then []
    else ServerMsg.chunk (data.take CHUNK_SIZE) :: serverSendChunks n (data.drop CHUNK_SIZE)

/-- `ClientHandler.handle_download_single_file`: join the requested name to
the served directory (no traversal check appears in the code), answer
`FILE_NOT_FOUND` if no regular file exists there, and otherwise send the
`FILE_INFO` header followed by the chunk payloads — a single empty payload
write for an empty file.  The not-found detail text is abbreviated to the
filename. -/
def handle_download_single_file (fsys : FileSystem) (filename : List Char) :
    List ServerMsg :=
  match lookupFile fsys (resolvePath (ospathJoin SERVER_FILES_DIR filename)) with
  | none => [ServerMsg.fileNotFound filename]
  | some contents =>
    ServerMsg.fileInfo filename contents.length (chunkCount contents.length) ::
      (if contents.length = 0 then [ServerMsg.chunk []]
       else serverSendChunks (chunkCount contents.length) contents)

/-- `ClientHandler.handle_list_files` on a directory listing given as pairs
of entry name and `os.path.isfile` flag: keep the regular files; an empty
result sends the no-files line, otherwise the count line followed by one
line per filename. -/
def handle_list_files (entries : List (List Char × Bool)) : List ServerMsg :=
  if (entries.filter (fun e => e.2)).map (fun e => e.1) = [] then
    [ServerMsg.okText "No files available.".data]
  else
    ServerMsg.okCount ((entries.filter (fun e => e.2)).map (fun e => e.1)).length ::
      ((entries.filter (fun e => e.2)).map (fun e => e.1)).map ServerMsg.rawLine

/-- ASCII whitespace for Python `str.strip` over decoded text. -/
def isSpaceChar (c : Char) : Bool :=
  c = ' ' || c = '\t' || c = '\n' || c = '\x0d' || c = '\x0b' || c = '\x0c'

/-- Python `str.strip` on decoded text. -/
def stripChars (l : List Char) : List Char :=
  ((l.dropWhile isSpaceChar).reverse.dropWhile isSpaceChar).reverse

/-- Find the first occurrence of the separator token `<|>` and split around
it, modelling `message.split(MSG_SEPARATOR, 1)`. -/
def splitSepOnce : List Char → Option (List Char × List Char)
  | '<' :: '|' :: '>' :: rest => some ([], rest)
  | c :: cs =>
    match splitSepOnce cs with
    | some (a, b) => some (c :: a, b)
    | none => none
  | [] => none

/-- Command parsing in `ClientHandler.run`: `parts[0]` is the verb and
`parts[1]`, when the separator occurs, the argument. -/
def parseCommand (m : List Char) : List Char × Option (List Char) :=
  match splitSepOnce m with
  | some (a, b) => (a, some b)
  | none => (m, none)

/-- Responses sent for one received command, plus whether the session keeps
awaiting further commands. -/
structure StepResult where
  responses : List ServerMsg
  continues : Bool
deriving DecidableEq

/-- One iteration of the `ClientHandler.run` loop on the decoded receive:
strip, terminate silently on an empty message, else dispatch on the verb.
`DOWNLOAD` without a truthy argument answers the filename error and keeps
the session alive. -/
def serverStep (fsys : FileSystem) (entries : List (List Char × Bool))
    (raw : List Char) : StepResult :=
  if stripChars raw = [] then ⟨[], false⟩
  else
    if (parseCommand (stripChars raw)).1 = "LIST".data then
      ⟨handle_list_files entries, true⟩
    else if (parseCommand (stripChars raw)).1 = "DOWNLOAD".data then
      match (parseCommand (stripChars raw)).2 with
      | some a =>
        if a ≠ [] then ⟨handle_download_single_file fsys a, true⟩
        else ⟨[ServerMsg.errorText "Filename not provided".data], true⟩
      | none => ⟨[ServerMsg.errorText "Filename not provided".data], true⟩
    else if (parseCommand (stripChars raw)).1 = "QUIT".data then
      ⟨[ServerMsg.okText "Goodbye!".data], false⟩
    else ⟨[ServerMsg.errorText "Unknown command".data], true⟩

/-- Byte-string trimmed only of one trailing carriage-return marker: the
line-trimming behaviour claim C3 attributes to `_receive_line`. -/
def trimTrailingCR (l : List Nat) : List Nat :=
  if l.getLast? = some 13 then l.dropLast else l

/-- A server response for a one-byte file in which the FILE_INFO header line
and the single payload byte `65` arrive in one socket read — the
header/payload interleaving that §4.1 of the spec calls load-bearing. -/
def headerWithPayloadStream : List (List Nat) :=
  [("FILE_INFO<|>a.txt<|>1<|>1\n".data.map Char.toNat) ++ [65]]

/-- A filesystem holding one regular file `secret.txt` in the parent of the
served directory and nothing inside the served directory. -/
def traversalFS : FileSystem := [([ "secret.txt".data ], [7, 7, 7])]

theorem planSizesAux_length (fileSize : Nat) :
    ∀ n offset, (planSizesAux fileSize n offset).length = n := by
  intro n
  induction n with
  | zero => intro offset; rfl
  | succ n ih => intro offset; simp [planSizesAux, ih]

theorem planSizesAux_sum (fileSize : Nat) :
    ∀ n offset, fileSize - offset ≤ n * CHUNK_SIZE →
      (planSizesAux fileSize n offset).sum = fileSize - offset := by
  intro n
  induction n with
  | zero =>
    intro offset h
    simp only [Nat.zero_mul, Nat.le_zero] at h
    simp [planSizesAux, h]
  | succ n ih =>
    intro offset h
    rw [Nat.succ_mul] at h
    simp only [planSizesAux, List.sum_cons]
    rcases Nat.le_total (fileSize - offset) CHUNK_SIZE with h1 | h1
    · rw [Nat.min_eq_right h1]
      rw [ih (offset + (fileSize - offset)) (by omega)]
      omega
    · rw [Nat.min_eq_left h1]
      rw [ih (offset + CHUNK_SIZE) (by omega)]
      omega

theorem le_chunkCount_mul (fileSize : Nat) :
    fileSize ≤ chunkCount fileSize * CHUNK_SIZE := by
  unfold chunkCount
  by_cases h : fileSize > 0
  · simp only [if_pos h]
    have hc : 0 < CHUNK_SIZE := by norm_num [CHUNK_SIZE]
    have hdm := Nat.div_add_mod (fileSize + CHUNK_SIZE - 1) CHUNK_SIZE
    have hlt := Nat.mod_lt (fileSize + CHUNK_SIZE - 1) hc
    rw [Nat.mul_comm]
    generalize hq : CHUNK_SIZE * ((fileSize + CHUNK_SIZE - 1) / CHUNK_SIZE) = A at hdm ⊢
    omega
  · simp only [if_neg h]
    omega

/-- C1: for every file size, the chunking plan used by server and client
(one chunk when the size is zero, else ceiling-division many, each chunk of
size `min(CHUNK_SIZE, file_size - offset)`) produces per-chunk sizes summing
exactly to the file size, with exactly one (empty) chunk for a zero-size
file. -/
theorem chunk_plan_correct (fileSize : Nat) :
    (planSizes fileSize).sum = fileSize ∧
    (planSizes fileSize).length = chunkCount fileSize ∧
    (fileSize = 0 → planSizes fileSize = [0]) := by
  refine ⟨?_, planSizesAux_length _ _ _, ?_⟩
  · have h := planSizesAux_sum fileSize (chunkCount fileSize) 0
      (by simpa using le_chunkCount_mul fileSize)
    simpa [planSizes] using h
  · intro h
    subst h
    decide

/-- Witness for C1 at the zero-size file. -/
theorem chunk_plan_correct_witness : planSizes 0 = [0] :=
  (chunk_plan_correct 0).2.2 rfl

theorem takeWhile_append_left {l₁ : List Nat} (l₂ : List Nat) (h : NL ∈ l₁) :
    (l₁ ++ l₂).takeWhile (fun b => b ≠ NL) = l₁.takeWhile (fun b => b ≠ NL) := by
  induction l₁ with
  | nil => simp at h
  | cons a t ih =>
    by_cases ha : a = NL
    · subst ha
      simp [List.takeWhile_cons]
    · have h1 : NL ∈ t := by
        rcases List.mem_cons.mp h with h2 | h2
        · exact absurd h2.symm ha
        · exact h2
      simpa [List.takeWhile_cons, ha] using ih h1

theorem dropWhile_append_left {l₁ : List Nat} (l₂ : List Nat) (h : NL ∈ l₁) :
    (l₁ ++ l₂).dropWhile (fun b => b ≠ NL) =
      l₁.dropWhile (fun b => b ≠ NL) ++ l₂ := by
  induction l₁ with
  | nil => simp at h
  | cons a t ih =>
    by_cases ha : a = NL
    · subst ha
      simp [List.dropWhile_cons]
    · have h1 : NL ∈ t := by
        rcases List.mem_cons.mp h with h2 | h2
        · exact absurd h2.symm ha
        · exact h2
      simpa [List.dropWhile_cons, ha] using ih h1

theorem dropWhile_ne_nil_of_mem {l : List Nat} (h : NL ∈ l) :
    l.dropWhile (fun b => b ≠ NL) ≠ [] := by
  induction l with
  | nil => simp at h
  | cons a t ih =>
    by_cases ha : a = NL
    · subst ha
      simp [List.dropWhile_cons]
    · have h1 : NL ∈ t := by
        rcases List.mem_cons.mp h with h2 | h2
        · exact absurd h2.symm ha
        · exact h2
      simpa [List.dropWhile_cons, ha] using ih h1

theorem tail_append_of_ne_nil {α : Type} (l₁ l₂ : List α) (h : l₁ ≠ []) :
    (l₁ ++ l₂).tail = l₁.tail ++ l₂ := by
  cases l₁ with
  | nil => exact absurd rfl h
  | cons a t => rfl

theorem sockRecv_spec (n : Nat) (p : List Nat) (rest : List (List Nat))
    (hn : 0 < n) (hp : p ≠ []) (hrest : ∀ q ∈ rest, q ≠ []) :
    (sockRecv n (p :: rest)).1 ≠ [] ∧
    (sockRecv n (p :: rest)).1 ++ (sockRecv n (p :: rest)).2.flatten =
      (p :: rest).flatten ∧
    (∀ q ∈ (sockRecv n (p :: rest)).2, q ≠ []) := by
  by_cases h : p.length ≤ n
  · simp only [sockRecv, if_pos h]
    exact ⟨hp, by simp, hrest⟩
  · simp only [sockRecv, if_neg h]
    refine ⟨?_, ?_, ?_⟩
    · intro hcon
      have hl : (p.take n).length = 0 := by rw [hcon]; rfl
      rw [List.length_take] at hl
      omega
    · simp only [List.flatten_cons, ← List.append_assoc, List.take_append_drop]
    · intro q hq
      rcases List.mem_cons.mp hq with h1 | h1
      · subst h1
        intro hcon
        have hl : (p.drop n).length = 0 := by rw [hcon]; rfl
        rw [List.length_drop] at hl
        omega
      · exact hrest q h1

theorem recvLineLoop_ok :
    ∀ (fuel : Nat) (buffer : List Nat) (stream : List (List Nat)),
      (∀ p ∈ stream, p ≠ []) → streamBytes stream < fuel →
      NL ∈ buffer ++ stream.flatten →
      ∃ buf rest,
        recvLineLoop fuel buffer stream =
          LineResult.ok
            (pyStrip ((buffer ++ stream.flatten).takeWhile (fun b => b ≠ NL)))
            buf rest ∧
        buf ++ rest.flatten =
          ((buffer ++ stream.flatten).dropWhile (fun b => b ≠ NL)).tail := by
  intro fuel
  induction fuel with
  | zero => intro _ _ _ hfuel _; exact absurd hfuel (Nat.not_lt_zero _)
  | succ fuel ih =>
    intro buffer stream hwf hfuel hmem
    by_cases hb : NL ∈ buffer
    · refine ⟨(splitFirstNL buffer).2, stream, ?_, ?_⟩
      · rw [recvLineLoop, if_pos hb, takeWhile_append_left _ hb]
        rfl
      · rw [dropWhile_append_left _ hb,
          tail_append_of_ne_nil _ _ (dropWhile_ne_nil_of_mem hb)]
        rfl
    · cases stream with
      | nil =>
        simp only [List.flatten_nil, List.append_nil] at hmem
        exact absurd hmem hb
      | cons p rest =>
        have hp : p ≠ [] := hwf p (List.mem_cons_self _ _)
        have hrest : ∀ q ∈ rest, q ≠ [] := fun q hq => hwf q (List.mem_cons_of_mem _ hq)
        obtain ⟨hne, hflat, hwf'⟩ :=
          sockRecv_spec BUFFER_SIZE p rest (by norm_num [BUFFER_SIZE]) hp hrest
        have hlist :
            (buffer ++ (sockRecv BUFFER_SIZE (p :: rest)).1) ++
              (sockRecv BUFFER_SIZE (p :: rest)).2.flatten =
            buffer ++ (p :: rest).flatten := by
          rw [List.append_assoc, hflat]
        have hlen : (sockRecv BUFFER_SIZE (p :: rest)).1.length +
            streamBytes (sockRecv BUFFER_SIZE (p :: rest)).2 =
            streamBytes (p :: rest) := by
          have := congrArg List.length hflat
          simpa [streamBytes, List.length_append] using this
        have hpos : 0 < (sockRecv BUFFER_SIZE (p :: rest)).1.length :=
          List.length_pos.mpr hne
        have hfuel' : streamBytes (sockRecv BUFFER_SIZE (p :: rest)).2 < fuel := by
          omega
        rw [recvLineLoop, if_neg hb, if_neg hne, ← hlist]
        exact ih _ _ hwf' hfuel' (by rw [hlist]; exact hmem)

theorem recvLineLoop_closed :
    ∀ (fuel : Nat) (buffer : List Nat) (stream : List (List Nat)),
      (∀ p ∈ stream, p ≠ []) → streamBytes stream < fuel →
      NL ∉ buffer ++ stream.flatten →
      recvLineLoop fuel buffer stream =
        if buffer ++ stream.flatten = [] then LineResult.closedEmpty
        else LineResult.closedWithData (buffer ++ stream.flatten) := by
  intro fuel
  induction fuel with
  | zero => intro _ _ _ hfuel _; exact absurd hfuel (Nat.not_lt_zero _)
  | succ fuel ih =>
    intro buffer stream hwf hfuel hmem
    have hb : NL ∉ buffer := fun h => hmem (List.mem_append_left _ h)
    cases stream with
    | nil =>
      rw [recvLineLoop, if_neg hb]
      simp [sockRecv]
    | cons p rest =>
      have hp : p ≠ [] := hwf p (List.mem_cons_self _ _)
      have hrest : ∀ q ∈ rest, q ≠ [] := fun q hq => hwf q (List.mem_cons_of_mem _ hq)
      obtain ⟨hne, hflat, hwf'⟩ :=
        sockRecv_spec BUFFER_SIZE p rest (by norm_num [BUFFER_SIZE]) hp hrest
      have hlist :
          (buffer ++ (sockRecv BUFFER_SIZE (p :: rest)).1) ++
            (sockRecv BUFFER_SIZE (p :: rest)).2.flatten =
          buffer ++ (p :: rest).flatten := by
        rw [List.append_assoc, hflat]
      have hlen : (sockRecv BUFFER_SIZE (p :: rest)).1.length +
          streamBytes (sockRecv BUFFER_SIZE (p :: rest)).2 =
          streamBytes (p :: rest) := by
        have := congrArg List.length hflat
        simpa [streamBytes, List.length_append] using this
      have hpos : 0 < (sockRecv BUFFER_SIZE (p :: rest)).1.length :=
        List.length_pos.mpr hne
      have hfuel' : streamBytes (sockRecv BUFFER_SIZE (p :: rest)).2 < fuel := by
        omega
      rw [recvLineLoop, if_neg hb, if_neg hne, ← hlist]
      exact ih _ _ hwf' hfuel' (by rw [hlist]; exact hmem)

/-- C3 counterexample: for the incoming bytes `" a\n"` followed by `"x"`, the
claim mandates returning the pre-newline bytes `" a"` (no trailing CR to
trim), but `_receive_line` applies `str.strip` and returns `"a"`: leading
and trailing whitespace is removed, not only a trailing CR.  The remainder
`"x"` is retained. -/
theorem receive_line_strips_whitespace_counterexample :
    recvLine [] [[32, 97, 10, 120]] = LineResult.ok [97] [120] [] ∧
    trimTrailingCR (([32, 97, 10, 120] : List Nat).takeWhile (fun b => b ≠ NL)) =
      [32, 97] ∧
    ([97] : List Nat) ≠ [32, 97] := by decide

/-- C3 (amended): whenever a newline occurs in the incoming byte sequence,
`_receive_line` returns exactly the bytes before the first newline — with
leading and trailing ASCII whitespace stripped, Python `str.strip`, rather
than only a trailing carriage-return removed — and retains every byte after
the newline (textual or binary) in the carry-over buffer together with the
undelivered stream. -/
theorem receive_line_returns_first_line (buffer : List Nat)
    (stream : List (List Nat)) (hwf : ∀ p ∈ stream, p ≠ [])
    (hmem : NL ∈ buffer ++ stream.flatten) :
    ∃ buf rest,
      recvLine buffer stream =
        LineResult.ok
          (pyStrip ((buffer ++ stream.flatten).takeWhile (fun b => b ≠ NL)))
          buf rest ∧
      buf ++ rest.flatten =
        ((buffer ++ stream.flatten).dropWhile (fun b => b ≠ NL)).tail :=
  recvLineLoop_ok _ buffer stream hwf (Nat.lt_succ_self _) hmem

/-- Witness for the amended C3 on the bytes `"Hi\nx"` arriving in one read. -/
theorem receive_line_returns_first_line_witness :
    ∃ buf rest,
      recvLine [] [[72, 105, 10, 120]] =
        LineResult.ok
          (pyStrip ((([] : List Nat) ++
            ([[72, 105, 10, 120]] : List (List Nat)).flatten).takeWhile
              (fun b => b ≠ NL)))
          buf rest ∧
      buf ++ rest.flatten =
        ((([] : List Nat) ++
          ([[72, 105, 10, 120]] : List (List Nat)).flatten).dropWhile
            (fun b => b ≠ NL)).tail :=
  receive_line_returns_first_line [] [[72, 105, 10, 120]] (by decide) (by decide)

/-- C4: if the stream is exhausted (the peer closed) before any newline is
seen, `_receive_line` raises ConnectionError — reporting the partial bytes
collected when there are any — and never returns an ok (empty or partial)
line. -/
theorem receive_line_connection_closed (buffer : List Nat)
    (stream : List (List Nat)) (hwf : ∀ p ∈ stream, p ≠ [])
    (hmem : NL ∉ buffer ++ stream.flatten) :
    recvLine buffer stream =
      if buffer ++ stream.flatten = [] then LineResult.closedEmpty
      else LineResult.closedWithData (buffer ++ stream.flatten) :=
  recvLineLoop_closed _ buffer stream hwf (Nat.lt_succ_self _) hmem

/-- Witness for C4: a partial line `"HI"` with no newline is reported in the
ConnectionError. -/
theorem receive_line_connection_closed_witness :
    recvLine [] [[72, 73]] =
      if ([] : List Nat) ++ ([[72, 73]] : List (List Nat)).flatten = []
      then LineResult.closedEmpty
      else LineResult.closedWithData (([] : List Nat) ++
        ([[72, 73]] : List (List Nat)).flatten) :=
  receive_line_connection_closed [] [[72, 73]] (by decide) (by decide)

/-- C2: the chunk loop of `Client.request_download_file` never consults the
carry-over `receive_buffer`.  When the header and the first payload byte
arrive in one read, the header read leaves the payload byte `65` in the
buffer, the chunk loop then reads only from the socket, finds it closed, and
the one-byte download fails (partial file deleted) although every byte had
arrived; the drain-the-buffer-first behaviour the spec mandates makes the
same download succeed with the correct contents. -/
theorem chunk_reader_ignores_carryover_buffer :
    recvLine [] headerWithPayloadStream =
      LineResult.ok ("FILE_INFO<|>a.txt<|>1<|>1".data.map Char.toNat) [65] [] ∧
    clientDownloadFlow 1 1 headerWithPayloadStream = none ∧
    clientDownloadFlowDrained 1 1 headerWithPayloadStream = some [65] := by
  decide

theorem sockRecv_fst_length (n : Nat) (s : List (List Nat)) :
    (sockRecv n s).1.length ≤ n := by
  cases s with
  | nil => simp [sockRecv]
  | cons p rest =>
    by_cases h : p.length ≤ n
    · simp [sockRecv, h]
    · simp [sockRecv, h, List.length_take]

theorem recvExactLoop_length :
    ∀ (fuel want : Nat) (acc : List Nat) (stream : List (List Nat))
      (c : List Nat) (r : List (List Nat)),
      acc.length ≤ want →
      recvExactLoop fuel want acc stream = some (c, r) → c.length = want := by
  intro fuel
  induction fuel with
  | zero => intro want acc stream c r _ h; simp [recvExactLoop] at h
  | succ fuel ih =>
    intro want acc stream c r hacc h
    rw [recvExactLoop] at h
    by_cases hge : acc.length ≥ want
    · rw [if_pos hge] at h
      rw [Option.some_inj, Prod.mk.injEq] at h
      rw [← h.1]
      omega
    · rw [if_neg hge] at h
      by_cases hemp : (sockRecv (min BUFFER_SIZE (want - acc.length)) stream).1 = []
      · rw [if_pos hemp] at h
        exact absurd h (by simp)
      · rw [if_neg hemp] at h
        have hlen := sockRecv_fst_length (min BUFFER_SIZE (want - acc.length)) stream
        refine ih want _ _ c r ?_ h
        rw [List.length_append]
        omega

theorem recvExact_length (want : Nat) (stream : List (List Nat))
    (c : List Nat) (r : List (List Nat))
    (h : recvExact want stream = some (c, r)) : c.length = want :=
  recvExactLoop_length (want + 1) want [] stream c r (by simp) h

theorem downloadLoop_fileData_length (fileSize : Nat) :
    ∀ (n : Nat) (st : ChunkLoopState), st.fileData.length = st.total →
      ∀ st', (downloadLoop fileSize n st).1 = some st' →
        st'.fileData.length = st'.total := by
  intro n
  induction n with
  | zero =>
    intro st hst st' h
    simp only [downloadLoop, Option.some_inj] at h
    rw [← h]
    exact hst
  | succ n ih =>
    intro st hst st' h
    rw [downloadLoop] at h
    by_cases hc : min CHUNK_SIZE (fileSize - st.total) = 0 ∧ st.total = fileSize
    · rw [if_pos hc] at h
      simp only [Option.some_inj] at h
      rw [← h]
      exact hst
    · rw [if_neg hc] at h
      cases hre : recvExact (min CHUNK_SIZE (fileSize - st.total)) st.stream with
      | none =>
        rw [hre] at h
        simp at h
      | some pr =>
        obtain ⟨chunk, rest⟩ := pr
        rw [hre] at h
        exact ih ⟨st.fileData ++ chunk, st.total + chunk.length, rest⟩
          (by simp [List.length_append, hst]) st' h

theorem downloadLoop_totals_invariant (fileSize : Nat) :
    ∀ (n : Nat) (st : ChunkLoopState), st.total ≤ fileSize →
      List.Chain' (· ≤ ·) (st.total :: (downloadLoop fileSize n st).2) ∧
      ∀ t ∈ (downloadLoop fileSize n st).2, t ≤ fileSize := by
  intro n
  induction n with
  | zero =>
    intro st hst
    exact ⟨by simp [downloadLoop], by simp [downloadLoop]⟩
  | succ n ih =>
    intro st hst
    by_cases hc : min CHUNK_SIZE (fileSize - st.total) = 0 ∧ st.total = fileSize
    · simp only [downloadLoop, if_pos hc]
      exact ⟨by simp, by simp⟩
    · simp only [downloadLoop, if_neg hc]
      cases hre : recvExact (min CHUNK_SIZE (fileSize - st.total)) st.stream with
      | none => exact ⟨by simp, by simp⟩
      | some pr =>
        obtain ⟨chunk, rest⟩ := pr
        have hlen : chunk.length = min CHUNK_SIZE (fileSize - st.total) :=
          recvExact_length _ _ _ _ hre
        have htot : st.total + chunk.length ≤ fileSize := by
          rw [hlen]
          omega
        have hmono : st.total ≤ st.total + chunk.length := Nat.le_add_right _ _
        obtain ⟨hchain, hbound⟩ :=
          ih ⟨st.fileData ++ chunk, st.total + chunk.length, rest⟩ htot
        refine ⟨?_, ?_⟩
        · rw [List.chain'_cons]
          exact ⟨hmono, hchain⟩
        · intro t ht
          rcases List.mem_cons.mp ht with h1 | h1
          · rw [h1]
            exact htot
          · exact hbound t h1

/-- C8: throughout a download the client transfer state satisfies
`0 ≤ bytes_received_so_far ≤ file_size`: starting from 0, the totals
recorded after each chunk of the loop form a monotonically non-decreasing
chain and never exceed the advertised file size. -/
theorem transfer_state_invariant (fileSize numChunks : Nat)
    (stream : List (List Nat)) :
    List.Chain' (· ≤ ·)
      (0 :: (downloadLoop fileSize numChunks ⟨[], 0, stream⟩).2) ∧
    ∀ t ∈ (downloadLoop fileSize numChunks ⟨[], 0, stream⟩).2, t ≤ fileSize :=
  downloadLoop_totals_invariant fileSize numChunks ⟨[], 0, stream⟩
    (Nat.zero_le _)

/-- Witness for C8 on a one-byte download: the recorded total 1 is bounded by
the advertised size 1. -/
theorem transfer_state_invariant_witness :
    (1 : Nat) ∈ (downloadLoop 1 1 ⟨[], 0, [[65]]⟩).2 ∧ (1 : Nat) ≤ 1 :=
  ⟨by decide, (transfer_state_invariant 1 1 [[65]]).2 1 (by decide)⟩

/-- C5: a download is judged successful iff `bytes_received_so_far` equals
the advertised size at the end of the planned chunk sequence; a size
mismatch or a mid-transfer connection failure deletes the partially written
file (`none`), so any local file that survives holds exactly `file_size`
bytes — no truncated artifact survives a failed download. -/
theorem download_completion_check (fileSize numChunks : Nat)
    (stream : List (List Nat)) :
    (∀ d, request_download fileSize numChunks stream = some d →
      d.length = fileSize) ∧
    (∀ st, (downloadLoop fileSize numChunks ⟨[], 0, stream⟩).1 = some st →
      ¬(fileSize = 0 ∧ numChunks = 1) →
      (request_download fileSize numChunks stream = some st.fileData ↔
        st.total = fileSize)) ∧
    ((downloadLoop fileSize numChunks ⟨[], 0, stream⟩).1 = none →
      ¬(fileSize = 0 ∧ numChunks = 1) →
      request_download fileSize numChunks stream = none) := by
  refine ⟨?_, ?_, ?_⟩
  · intro d h
    unfold request_download at h
    by_cases hz : fileSize = 0 ∧ numChunks = 1
    · rw [if_pos hz] at h
      rw [Option.some_inj] at h
      rw [← h, hz.1]
      rfl
    · rw [if_neg hz] at h
      cases hdl : (downloadLoop fileSize numChunks ⟨[], 0, stream⟩).1 with
      | none =>
        rw [hdl] at h
        simp at h
      | some st =>
        rw [hdl] at h
        dsimp only at h
        by_cases ht : st.total = fileSize
        · rw [if_pos ht] at h
          rw [Option.some_inj] at h
          rw [← h, downloadLoop_fileData_length fileSize numChunks
            ⟨[], 0, stream⟩ rfl st hdl, ht]
        · rw [if_neg ht] at h
          simp at h
  · intro st hdl hz
    unfold request_download
    rw [if_neg hz, hdl]
    dsimp only
    constructor
    · intro h
      by_cases ht : st.total = fileSize
      · exact ht
      · rw [if_neg ht] at h
        simp at h
    · intro ht
      rw [if_pos ht]
  · intro hdl hz
    unfold request_download
    rw [if_neg hz, hdl]

/-- Witness for C5 on a successful one-byte download. -/
theorem download_completion_check_witness :
    request_download 1 1 [[65]] = some [65] ∧ ([65] : List Nat).length = 1 :=
  ⟨by decide, (download_completion_check 1 1 [[65]]).1 [65] (by decide)⟩

/-- C6 counterexample: the DOWNLOAD name `../secret.txt` resolves outside the
served directory, yet `handle_download_single_file` streams the file rather
than rejecting the traversal — the code joins the name to the served
directory with no traversal check, so the claimed rejection is false. -/
theorem download_path_traversal_counterexample :
    handle_download_single_file traversalFS "../secret.txt".data =
      [ServerMsg.fileInfo "../secret.txt".data 3 1, ServerMsg.chunk [7, 7, 7]] ∧
    isUnderServedDir
      (resolvePath (ospathJoin SERVER_FILES_DIR "../secret.txt".data)) = false := by
  decide

/-- C6 (amended): the server resolves the name by joining it to the served
directory path with no traversal rejection: a name whose resolved path
carries no regular file yields FILE_NOT_FOUND, and any name whose resolved
path does carry one — inside the served directory or not — is streamed. -/
theorem download_path_resolution (fsys : FileSystem) (name : List Char) :
    (lookupFile fsys (resolvePath (ospathJoin SERVER_FILES_DIR name)) = none ↔
      handle_download_single_file fsys name = [ServerMsg.fileNotFound name]) ∧
    (∀ c, lookupFile fsys (resolvePath (ospathJoin SERVER_FILES_DIR name)) =
        some c →
      handle_download_single_file fsys name =
        ServerMsg.fileInfo name c.length (chunkCount c.length) ::
          (if c.length = 0 then [ServerMsg.chunk []]
           else serverSendChunks (chunkCount c.length) c)) := by
  constructor
  · constructor
    · intro h
      unfold handle_download_single_file
      rw [h]
    · intro h
      unfold handle_download_single_file at h
      cases hl : lookupFile fsys (resolvePath (ospathJoin SERVER_FILES_DIR name)) with
      | none => rfl
      | some c =>
        rw [hl] at h
        dsimp only at h
        simp at h
  · intro c h
    unfold handle_download_single_file
    rw [h]

/-- Witness for the amended C6: an absent file name yields FILE_NOT_FOUND. -/
theorem download_path_resolution_witness :
    handle_download_single_file [] "nope.txt".data =
      [ServerMsg.fileNotFound "nope.txt".data] :=
  (download_path_resolution [] "nope.txt".data).1.mp rfl

/-- C7: listing a directory with no regular files answers the OK no-files
line and never an error; with at least one regular file the response is the
OK count line followed by one line per filename, so the advertised count
always equals the number of filename lines sent. -/
theorem list_files_count_correct (entries : List (List Char × Bool)) :
    ((entries.filter (fun e => e.2)).map (fun e => e.1) = [] →
      handle_list_files entries = [ServerMsg.okText "No files available.".data]) ∧
    ((entries.filter (fun e => e.2)).map (fun e => e.1) ≠ [] →
      (handle_list_files entries).head? =
        some (ServerMsg.okCount ((handle_list_files entries).tail.length)) ∧
      (handle_list_files entries).tail =
        ((entries.filter (fun e => e.2)).map (fun e => e.1)).map
          ServerMsg.rawLine) := by
  constructor
  · intro h
    unfold handle_list_files
    rw [if_pos h]
  · intro h
    unfold handle_list_files
    rw [if_neg h]
    exact ⟨by simp, rfl⟩

/-- Witness for C7 on a directory holding one regular file and one
non-regular entry. -/
theorem list_files_count_correct_witness :
    (handle_list_files [("a.txt".data, true), ("sub".data, false)]).head? =
      some (ServerMsg.okCount
        ((handle_list_files [("a.txt".data, true), ("sub".data, false)]).tail.length)) ∧
    (handle_list_files [("a.txt".data, true), ("sub".data, false)]).tail =
      ((([("a.txt".data, true), ("sub".data, false)] :
          List (List Char × Bool)).filter (fun e => e.2)).map (fun e => e.1)).map
        ServerMsg.rawLine :=
  (list_files_count_correct [("a.txt".data, true), ("sub".data, false)]).2
    (by decide)

/-- C9: a zero-byte file is represented as exactly one chunk of length 0:
the server advertises size 0 with chunk count 1 and performs exactly one
empty payload write after the FILE_INFO header, and the client download for
size 0 and chunk count 1 succeeds with an empty local file on every socket
stream. -/
theorem empty_file_single_chunk (fsys : FileSystem) (name : List Char)
    (h : lookupFile fsys (resolvePath (ospathJoin SERVER_FILES_DIR name)) =
      some []) :
    handle_download_single_file fsys name =
      [ServerMsg.fileInfo name 0 1, ServerMsg.chunk []] ∧
    ∀ stream, request_download 0 1 stream = some [] := by
  constructor
  · unfold handle_download_single_file
    rw [h]
    rfl
  · intro stream
    unfold request_download
    rw [if_pos ⟨rfl, rfl⟩]

/-- Witness for C9: an empty file inside the served directory. -/
theorem empty_file_single_chunk_witness :
    handle_download_single_file [([SERVER_FILES_DIR, "empty.txt".data], [])]
        "empty.txt".data =
      [ServerMsg.fileInfo "empty.txt".data 0 1, ServerMsg.chunk []] ∧
    request_download 0 1 [] = some [] :=
  ⟨(empty_file_single_chunk [([SERVER_FILES_DIR, "empty.txt".data], [])]
      "empty.txt".data (by decide)).1,
   (empty_file_single_chunk [([SERVER_FILES_DIR, "empty.txt".data], [])]
      "empty.txt".data (by decide)).2 []⟩

/-- C10: a DOWNLOAD command with no separator or an empty argument is
answered with the filename-not-provided error and the session keeps
awaiting further commands rather than terminating. -/
theorem download_missing_filename_error (fsys : FileSystem)
    (entries : List (List Char × Bool)) (raw : List Char)
    (hne : stripChars raw ≠ [])
    (hcmd : (parseCommand (stripChars raw)).1 = "DOWNLOAD".data)
    (harg : (parseCommand (stripChars raw)).2 = none ∨
      (parseCommand (stripChars raw)).2 = some []) :
    serverStep fsys entries raw =
      ⟨[ServerMsg.errorText "Filename not provided".data], true⟩ := by
  unfold serverStep
  rw [if_neg hne]
  have hnl : ¬(parseCommand (stripChars raw)).1 = "LIST".data := by
    rw [hcmd]
    decide
  rw [if_neg hnl, if_pos hcmd]
  rcases harg with h | h
  · rw [h]
  · rw [h]
    simp

/-- Witness for C10 on the bare `DOWNLOAD` command. -/
theorem download_missing_filename_error_witness :
    serverStep [] [] "DOWNLOAD".data =
      ⟨[ServerMsg.errorText "Filename not provided".data], true⟩ :=
  download_missing_filename_error [] [] "DOWNLOAD".data (by decide) (by decide)
    (Or.inl (by decide))

end SocketProj
